import Mathlib

/-!
Verification of the uptime-monitoring core: a shallow embedding of the
probe executor (`app/services/checker.py`), the availability engine
(`app/services/metrics.py`), the incident tracker and scheduler completion
step (`app/workers/runner.py`), translated from the Python source, with
theorems settling the specification claims.
-/

namespace Uptime

/-- `Status` enum from `app/db/models.py`. -/
inductive Status
  | UP
  | DOWN
deriving DecidableEq, Repr

/-! ## Probe executor (`app/services/checker.py`) -/

/-- Exceptions an attempt can raise, classified the way the `isinstance`
chain of `_normalize_error` and the `except` clauses of `Checker.check`
distinguish them.  `timeoutExc` is `httpx.TimeoutException`, `connectError`
is `httpx.ConnectError`, `otherTransport cls` is any other
`httpx.TransportError` with class name `cls`, `gaierror` is
`socket.gaierror`, and `unexpected msg` is any other exception whose
`str(exc)` is `msg`. -/
inductive Exc
  | timeoutExc
  | connectError
  | otherTransport (className : String)
  | gaierror (msg : String)
  | unexpected (msg : String)
deriving DecidableEq, Repr

/-- Whether the exception is caught by the clause
`except (httpx.TimeoutException, httpx.ConnectError, httpx.TransportError)`
of `Checker.check` (timeouts and connect errors are `TransportError`
subclasses in httpx). -/
def Exc.isHttpxTransport : Exc → Bool
  | .timeoutExc => true
  | .connectError => true
  | .otherTransport _ => true
  | .gaierror _ => false
  | .unexpected _ => false

/-- `_normalize_error` from `app/services/checker.py`: the `isinstance`
chain returns "timeout", "connect_error", the lowercased class name for
other transport errors, "dns_error" for `socket.gaierror`, and `str(exc)`
for everything else. -/
def normalizeError : Exc → String
  | .timeoutExc => "timeout"
  | .connectError => "connect_error"
  | .otherTransport className => className.toLower
  | .gaierror _ => "dns_error"
  | .unexpected msg => msg

/-- What `client.get` does on one attempt: either an HTTP response with a
status code arrives, or an exception is raised. -/
inductive AttemptEvent
  | response (statusCode : Int)
  | raising (e : Exc)
deriving DecidableEq, Repr

/-- An attempt that raises an exception of the httpx transport family
(the retryable clause of `Checker.check`). -/
def AttemptEvent.isTransportRaise : AttemptEvent → Bool
  | .raising e => e.isHttpxTransport
  | .response _ => false

/-- `CheckRequest` dataclass from `app/services/checker.py`. -/
structure CheckRequest where
  target_id : String
  url : String
  timeout_ms : Nat
  retry_count : Nat
  retry_backoff_ms : Nat
deriving DecidableEq, Repr

/-- The observable outcome of `Checker.check`: the `status`,
`http_status` and `error` fields of the returned `CheckResultDTO`,
plus the number of attempts performed and the number of backoff sleeps
(each of `retry_backoff_ms`), which the loop makes observable through
`client.get` and `self._sleep`. -/
structure CheckOutcome where
  status : Status
  http_status : Option Int
  error : Option String
  attemptsMade : Nat
  sleeps : Nat
deriving DecidableEq, Repr

/-- The `for attempt in range(attempts)` loop of `Checker.check`, run on
the list of events the environment produces for the successive attempts.
State before the loop: `http_status = None`, `error` as given (initially
`None`), `status = DOWN`.  A response sets `http_status` and `status` and
breaks; a transport-family exception records the normalized error and
retries after a sleep unless it was the last attempt; any other exception
records the normalized error, sets `status = DOWN` and breaks. -/
def runAttempts : List AttemptEvent → Option String → CheckOutcome
  | [], err => { status := Status.DOWN, http_status := none, error := err, attemptsMade := 0, sleeps := 0 }
  | ev :: rest, err =>
    match ev with
    | .response code =>
      { status := if 200 ≤ code ∧ code < 400 then Status.UP else Status.DOWN
        http_status := some code
        error := err
        attemptsMade := 1
        sleeps := 0 }
    | .raising e =>
      if e.isHttpxTransport then
        if rest.isEmpty then
          { status := Status.DOWN, http_status := none
            error := some (normalizeError e), attemptsMade := 1, sleeps := 0 }
        else
          let out := runAttempts rest (some (normalizeError e))
          { out with attemptsMade := out.attemptsMade + 1, sleeps := out.sleeps + 1 }
      else
        { status := Status.DOWN, http_status := none
          error := some (normalizeError e), attemptsMade := 1, sleeps := 0 }

/-- `Checker.check` from `app/services/checker.py`: `attempts =
retry_count + 1` attempts, attempt `i` behaving as `env i` says. -/
def check (req : CheckRequest) (env : Nat → AttemptEvent) : CheckOutcome :=
  runAttempts ((List.range (req.retry_count + 1)).map env) none

/-- The error value after folding the normalized errors of a run of
attempts over an initial error value (each exception overwrites, a
response leaves it alone). -/
def errAfter (l : List AttemptEvent) (err : Option String) : Option String :=
  l.foldl
    (fun acc ev => match ev with
      | AttemptEvent.raising e => some (normalizeError e)
      | AttemptEvent.response _ => acc)
    err

/-! ## Availability engine (`app/services/metrics.py`) -/

/-- The fields of a `CheckResult` row that `uptime_window` reads:
`status` and `checked_at` (timestamps in whole seconds). -/
structure CheckRow where
  status : Status
  checked_at : Int
deriving DecidableEq, Repr

/-- The fields of the record `MetricsService.uptime_window` returns that
depend on the check stream (`target_id`, `window_hours`, `from_ts`,
`to_ts`, `sla_target_per_mille` are echoes of the inputs). -/
structure UptimeResult where
  uptime_seconds : Int
  downtime_seconds : Int
  availability : Option ℚ
  sample_count : Nat
  sla_met : Option Bool
deriving DecidableEq, Repr

/-- The mutable loop state of `uptime_window`: the accumulated uptime and
downtime and the cursor `current_status`, `current_ts`. -/
structure AccState where
  uptime : Int
  downtime : Int
  cur_status : Status
  cur_ts : Int
deriving DecidableEq, Repr

/-- The `for check in checks[start_index:]` loop of `uptime_window`:
samples behind the cursor are skipped; otherwise the elapsed delta (when
positive) is credited to uptime or downtime according to the current
status, and the cursor advances to the sample. -/
def accumulate (s : AccState) : List CheckRow → AccState
  | [] => s
  | c :: rest =>
    if c.checked_at < s.cur_ts then
      accumulate s rest
    else
      let δ := c.checked_at - s.cur_ts
      let s' :=
        if 0 < δ then
          if s.cur_status = Status.UP then { s with uptime := s.uptime + δ }
          else { s with downtime := s.downtime + δ }
        else s
      accumulate { s' with cur_status := c.status, cur_ts := c.checked_at } rest

/-- Adding the tail `now - current_ts` (when positive) to uptime or
downtime, as the final step of `uptime_window` does. -/
def addTail (now : Int) (s : AccState) : AccState :=
  if 0 < now - s.cur_ts then
    if s.cur_status = Status.UP then { s with uptime := s.uptime + (now - s.cur_ts) }
    else { s with downtime := s.downtime + (now - s.cur_ts) }
  else s

/-- `MetricsService.uptime_window` from `app/services/metrics.py`.
`previous` is the most recent `CheckResult` with `checked_at <
window_start` (the `previous` query), `checks` the rows with `checked_at ≥
window_start` in ascending `checked_at` order (the `rows` query), and
`slaTarget` the target's `sla_target` when the caller passed none.  The
early return fires when there is no previous row, the unknown-as-down
policy is off and the window is empty; otherwise the baseline is the
previous row's status at `window_start`, or the first in-window sample,
or the policy fallback. -/
def uptimeWindow (now : Int) (windowHours : Int) (slaTarget : Option Int)
    (assumeUnknownAsDown : Bool) (previous : Option CheckRow)
    (checks : List CheckRow) : UptimeResult :=
  let windowStart := now - windowHours * 3600
  if previous = none ∧ assumeUnknownAsDown = false ∧ checks = [] then
    { uptime_seconds := 0, downtime_seconds := 0, availability := none
      sample_count := 0, sla_met := none }
  else
    let init : AccState :=
      match previous, checks with
      | some p, _ => { uptime := 0, downtime := 0, cur_status := p.status, cur_ts := windowStart }
      | none, c :: _ => { uptime := 0, downtime := 0, cur_status := c.status, cur_ts := c.checked_at }
      | none, [] =>
        { uptime := 0, downtime := 0
          cur_status := if assumeUnknownAsDown then Status.DOWN else Status.UP
          cur_ts := windowStart }
    let rest : List CheckRow :=
      match previous, checks with
      | some _, l => l
      | none, _ :: r => r
      | none, [] => []
    let fin := addTail now (accumulate init rest)
    let total := fin.uptime + fin.downtime
    let availability : Option ℚ := if 0 < total then some ((fin.uptime : ℚ) / (total : ℚ)) else none
    let sla_met : Option Bool :=
      match slaTarget, availability with
      | some tgt, some av => some (decide ((tgt : ℚ) / 1000 ≤ av))
      | _, _ => none
    { uptime_seconds := fin.uptime, downtime_seconds := fin.downtime
      availability := availability, sample_count := checks.length, sla_met := sla_met }

/-! ## Incident tracker (`MonitoringWorker._update_incident`) -/

/-- An `Incident` row (`app/db/models.py`): the fields
`_update_incident` reads and writes. -/
structure Incident where
  start_ts : Int
  end_ts : Option Int
  last_status : Status
  resolved : Bool
deriving DecidableEq, Repr

/-- Whether the target has an open (unresolved) incident: the
`select(Incident).where(resolved.is_(False))` lookup finds a row. -/
def hasOpen (incs : List Incident) : Bool :=
  incs.any (fun i => !i.resolved)

/-- Number of open incidents (the data-model invariant I1 says at most
one). -/
def countOpen (incs : List Incident) : Nat :=
  incs.countP (fun i => !i.resolved)

/-- Number of resolved incidents. -/
def countResolved (incs : List Incident) : Nat :=
  incs.countP (fun i => i.resolved)

/-- Apply `f` to the first unresolved incident, leaving every other row
unchanged: the effect of mutating the row returned by the open-incident
lookup. -/
def setFirstOpen (f : Incident → Incident) : List Incident → List Incident
  | [] => []
  | i :: rest =>
    if i.resolved then i :: setFirstOpen f rest
    else f i :: rest

/-- `MonitoringWorker._update_incident` from `app/workers/runner.py`:
on DOWN, insert an open incident when none exists, else refresh the open
incident's `last_status`; on UP, close the open incident when one
exists, else do nothing. -/
def updateIncident (incs : List Incident) (st : Status) (t : Int) : List Incident :=
  if st = Status.DOWN then
    if hasOpen incs then
      setFirstOpen (fun i => { i with last_status := Status.DOWN }) incs
    else
      incs ++ [{ start_ts := t, end_ts := none, last_status := Status.DOWN, resolved := false }]
  else
    setFirstOpen (fun i => { i with end_ts := some t, last_status := Status.UP, resolved := true }) incs

/-- A notification event kind, tagged with the probe timestamp. -/
inductive Emission
  | openedAlert (t : Int)
  | resolvedAlert (t : Int)
deriving DecidableEq, Repr

/-- Modelled from the spec: the notifier wiring is in the excluded
notifier adapter, not under `src/`; §4.3 of the spec says to emit exactly
once per `HEALTHY → FAILING` transition (incident opened) and once per
`FAILING → HEALTHY` transition (incident resolved).  `HEALTHY` is "no
open incident", `FAILING` is "an open incident exists", so the emission
accompanies the incident update exactly when the open-incident predicate
flips. -/
def processResult (incs : List Incident) (st : Status) (t : Int) : List Incident × List Emission :=
  let incs' := updateIncident incs st t
  if hasOpen incs = false ∧ hasOpen incs' = true then (incs', [Emission.openedAlert t])
  else if hasOpen incs = true ∧ hasOpen incs' = false then (incs', [Emission.resolvedAlert t])
  else (incs', [])

/-- Process a sequence of probe outcomes `(status, checked_at)` for a
target, collecting the emissions. -/
def processSeq (incs : List Incident) : List (Status × Int) → List Incident × List Emission
  | [] => (incs, [])
  | (st, t) :: rest =>
    let step := processResult incs st t
    let tail := processSeq step.1 rest
    (tail.1, step.2 ++ tail.2)

/-- Number of incident-opened emissions in a list. -/
def countOpenedEm (ems : List Emission) : Nat :=
  ems.countP (fun e => match e with | Emission.openedAlert _ => true | _ => false)

/-- Number of incident-resolved emissions in a list. -/
def countResolvedEm (ems : List Emission) : Nat :=
  ems.countP (fun e => match e with | Emission.resolvedAlert _ => true | _ => false)

/-! ## Scheduler (`MonitoringWorker._ensure_scheduler_entries`,
`MonitoringWorker._persist_result`) -/

/-- A `SchedulerState` row: the fields the worker reads and writes. -/
structure SchedRow where
  target_id : Nat
  next_run_at : Int
  lease_owner : Option String
  lease_expires_at : Option Int
deriving DecidableEq, Repr

/-- Whether some `SchedulerState` row exists for the target (the
`existing` set membership test). -/
def hasStateFor (states : List SchedRow) (tid : Nat) : Bool :=
  states.any (fun r => r.target_id == tid)

/-- The `SchedulerState` row `_ensure_scheduler_entries` inserts for a
target lacking one: `next_run_at = now`, no lease. -/
def freshRow (now : Int) (tid : Nat) : SchedRow :=
  { target_id := tid, next_run_at := now, lease_owner := none, lease_expires_at := none }

/-- `MonitoringWorker._ensure_scheduler_entries`: for every target (by
id) lacking a `SchedulerState` row, add one with `next_run_at = now` and
no lease; the `existing` set is computed once, before the loop. -/
def ensureEntries (now : Int) (targets : List Nat) (states : List SchedRow) : List SchedRow :=
  states ++ (targets.filter (fun tid => !hasStateFor states tid)).map (freshRow now)

/-- A persisted `CheckResult` row as written by `_persist_result`. -/
structure CheckResultRow where
  status : Status
  http_status : Option Int
  latency_ms : Option Int
  error : Option String
  checked_at : Int
deriving DecidableEq, Repr

/-- The per-target database state `_persist_result` touches: the
`SchedulerState` row, the target's `check_interval_sec`, the
`CheckResult` rows and the `Incident` rows. -/
structure WorkerDb where
  state : SchedRow
  check_interval_sec : Int
  results : List CheckResultRow
  incidents : List Incident
deriving DecidableEq, Repr

/-- `MonitoringWorker._persist_result` from `app/workers/runner.py`, in
the case where the scheduler row and the target exist: in one
transaction, append the `CheckResult` row built from the probe result,
run `_update_incident`, set `next_run_at = result.checked_at +
check_interval_sec` and clear the lease. -/
def persistResult (db : WorkerDb) (result : CheckResultRow) : WorkerDb :=
  { db with
    results := db.results ++ [result]
    incidents := updateIncident db.incidents result.status result.checked_at
    state :=
      { db.state with
        next_run_at := result.checked_at + db.check_interval_sec
        lease_owner := none
        lease_expires_at := none } }

/-! ## Lemmas about the probe executor -/

theorem errAfter_cons_raising (e : Exc) (l : List AttemptEvent) (err : Option String) :
    errAfter (AttemptEvent.raising e :: l) err = errAfter l (some (normalizeError e)) := rfl

theorem errAfter_isSome (l : List AttemptEvent) (err : Option String)
    (hne : l ≠ []) (h : ∀ ev ∈ l, ev.isTransportRaise = true) :
    (errAfter l err).isSome = true := by
  revert hne h
  induction l generalizing err with
  | nil => intro hne _; exact absurd rfl hne
  | cons ev rest ih =>
    intro _ h
    cases ev with
    | response c =>
      have := h _ (List.mem_cons_self _ _)
      simp [AttemptEvent.isTransportRaise] at this
    | raising e =>
      cases rest with
      | nil => simp [errAfter]
      | cons y ys =>
        rw [errAfter_cons_raising]
        exact ih (some (normalizeError e)) (by simp)
          (fun x hx => h x (List.mem_cons_of_mem _ hx))

theorem runAttempts_cons_retry (e : Exc) (y : AttemptEvent) (ys : List AttemptEvent)
    (err : Option String) (he : e.isHttpxTransport = true) :
    runAttempts (AttemptEvent.raising e :: y :: ys) err =
      { status := (runAttempts (y :: ys) (some (normalizeError e))).status
        http_status := (runAttempts (y :: ys) (some (normalizeError e))).http_status
        error := (runAttempts (y :: ys) (some (normalizeError e))).error
        attemptsMade := (runAttempts (y :: ys) (some (normalizeError e))).attemptsMade + 1
        sleeps := (runAttempts (y :: ys) (some (normalizeError e))).sleeps + 1 } := by
  simp [runAttempts, he]

theorem runAttempts_attemptsMade_le (l : List AttemptEvent) (err : Option String) :
    (runAttempts l err).attemptsMade ≤ l.length := by
  induction l generalizing err with
  | nil => simp [runAttempts]
  | cons ev rest ih =>
    cases ev with
    | response c => simp [runAttempts]
    | raising e =>
      by_cases he : e.isHttpxTransport
      · cases rest with
        | nil => simp [runAttempts, he]
        | cons y ys =>
          rw [runAttempts_cons_retry e y ys err he]
          have h2 := ih (some (normalizeError e))
          simp only [List.length_cons] at h2 ⊢
          omega
      · simp [runAttempts, he]

theorem runAttempts_transport_prefix_response (l₁ l₂ : List AttemptEvent) (code : Int)
    (err : Option String) (h : ∀ ev ∈ l₁, ev.isTransportRaise = true) :
    runAttempts (l₁ ++ AttemptEvent.response code :: l₂) err =
      { status := if 200 ≤ code ∧ code < 400 then Status.UP else Status.DOWN
        http_status := some code
        error := errAfter l₁ err
        attemptsMade := l₁.length + 1
        sleeps := l₁.length } := by
  revert h
  induction l₁ generalizing err with
  | nil => intro _; simp [runAttempts, errAfter]
  | cons ev rest ih =>
    intro h
    cases ev with
    | response c =>
      have := h _ (List.mem_cons_self _ _)
      simp [AttemptEvent.isTransportRaise] at this
    | raising e =>
      have he : e.isHttpxTransport = true := h _ (List.mem_cons_self _ _)
      have hrest : ∀ x ∈ rest, x.isTransportRaise = true :=
        fun x hx => h x (List.mem_cons_of_mem _ hx)
      obtain ⟨y, ys, hsh⟩ : ∃ y ys, rest ++ AttemptEvent.response code :: l₂ = y :: ys := by
        cases rest <;> exact ⟨_, _, rfl⟩
      rw [List.cons_append, hsh, runAttempts_cons_retry e y ys err he, ← hsh,
        ih (some (normalizeError e)) hrest, errAfter_cons_raising]
      simp

theorem runAttempts_all_transport (l : List AttemptEvent) (err : Option String)
    (hne : l ≠ []) (h : ∀ ev ∈ l, ev.isTransportRaise = true) :
    runAttempts l err =
      { status := Status.DOWN
        http_status := none
        error := errAfter l err
        attemptsMade := l.length
        sleeps := l.length - 1 } := by
  revert hne h
  induction l generalizing err with
  | nil => intro hne _; exact absurd rfl hne
  | cons ev rest ih =>
    intro _ h
    cases ev with
    | response c =>
      have := h _ (List.mem_cons_self _ _)
      simp [AttemptEvent.isTransportRaise] at this
    | raising e =>
      have he : e.isHttpxTransport = true := h _ (List.mem_cons_self _ _)
      cases rest with
      | nil => simp [runAttempts, he, errAfter]
      | cons y ys =>
        have hys : ∀ x ∈ y :: ys, x.isTransportRaise = true :=
          fun x hx => h x (List.mem_cons_of_mem _ hx)
        rw [runAttempts_cons_retry e y ys err he,
          ih (some (normalizeError e)) (by simp) hys, errAfter_cons_raising]
        simp

/-- Shared shape lemma: when attempts `0, …, k-1` fail with
transport-family exceptions and attempt `k` receives a response, the
whole outcome of `check` is determined: the response's code is recorded,
no further attempt is made, and the error field still holds the error of
the last failed attempt. -/
theorem check_response_eq (req : CheckRequest) (env : Nat → AttemptEvent) (k : Nat) (code : Int)
    (hk : k ≤ req.retry_count)
    (hprior : ∀ i, i < k → (env i).isTransportRaise = true)
    (hresp : env k = AttemptEvent.response code) :
    check req env =
      { status := if 200 ≤ code ∧ code < 400 then Status.UP else Status.DOWN
        http_status := some code
        error := errAfter ((List.range k).map env) none
        attemptsMade := k + 1
        sleeps := k } := by
  have harg : req.retry_count + 1 = k + (req.retry_count - k + 1) := by omega
  rw [check, harg, List.range_add, List.range_succ_eq_map]
  simp only [List.map_cons, List.map_append, List.map_map, Nat.add_zero]
  rw [hresp]
  rw [runAttempts_transport_prefix_response]
  · simp
  · intro ev hev
    rcases List.mem_map.mp hev with ⟨i, hi, rfl⟩
    exact hprior i (List.mem_range.mp hi)

/-! ## Claim C1: error normalization -/

/-- The six stable error kinds the specification lists. -/
def stableErrorKinds : List String :=
  ["timeout", "connect_error", "dns_error", "tls_error", "transport_error", "other"]

/-- The concrete request of the C1 counterexample. -/
def c1req : CheckRequest :=
  { target_id := "t", url := "http://x", timeout_ms := 1000, retry_count := 2, retry_backoff_ms := 100 }

/-- The C1 counterexample environment: every attempt raises an unexpected
(non-transport) exception whose `str(exc)` is `"boom"`. -/
def c1env : Nat → AttemptEvent := fun _ => AttemptEvent.raising (Exc.unexpected "boom")

/-- C1 counterexample: an unexpected exception with `str(exc) = "boom"`
makes `check` return `DOWN` after a single attempt with `error = "boom"`,
which is not one of the six stable kinds and in particular is not
`"other"` — refuting the claim that the error of a failed probe is always
a stable kind and that unexpected exceptions surface as `"other"`. -/
theorem check_unexpected_error_not_stable :
    (check c1req c1env).status = Status.DOWN ∧
    (check c1req c1env).error = some "boom" ∧
    "boom" ∉ stableErrorKinds ∧
    (check c1req c1env).error ≠ some "other" := by decide

/-- C1 (amended): for an unexpected (non-transport) exception `check`
makes no further attempts and returns `DOWN`, but its error field is
`_normalize_error` of the exception, which is `str(exc)` for unexpected
exceptions (not the constant `"other"`), the lowercased exception class
name for httpx transport errors other than timeouts and connect errors
(never `"transport_error"` or `"tls_error"`), `"timeout"` for httpx
timeouts, `"connect_error"` for httpx connect errors and `"dns_error"`
for `socket.gaierror`. -/
theorem check_unexpected_breaks_with_str_error (req : CheckRequest) (env : Nat → AttemptEvent)
    (m : String) (h0 : env 0 = AttemptEvent.raising (Exc.unexpected m)) :
    (check req env).status = Status.DOWN ∧
    (check req env).error = some m ∧
    (check req env).attemptsMade = 1 ∧
    normalizeError Exc.timeoutExc = "timeout" ∧
    normalizeError Exc.connectError = "connect_error" ∧
    (∀ cls, normalizeError (Exc.otherTransport cls) = cls.toLower) ∧
    (∀ s, normalizeError (Exc.gaierror s) = "dns_error") ∧
    (∀ s, normalizeError (Exc.unexpected s) = s) := by
  have hbreak : check req env =
      { status := Status.DOWN, http_status := none
        error := some (normalizeError (Exc.unexpected m)), attemptsMade := 1, sleeps := 0 } := by
    rw [check, List.range_succ_eq_map, List.map_cons, h0]
    simp [runAttempts, Exc.isHttpxTransport]
  rw [hbreak]
  refine ⟨rfl, rfl, rfl, rfl, rfl, fun cls => rfl, fun s => rfl, fun s => rfl⟩

/-- Witness for the amended C1 theorem at a concrete input. -/
theorem check_unexpected_breaks_with_str_error_witness :
    (check c1req c1env).status = Status.DOWN ∧
    (check c1req c1env).error = some "boom" ∧
    (check c1req c1env).attemptsMade = 1 ∧
    normalizeError Exc.timeoutExc = "timeout" ∧
    normalizeError Exc.connectError = "connect_error" ∧
    (∀ cls, normalizeError (Exc.otherTransport cls) = cls.toLower) ∧
    (∀ s, normalizeError (Exc.gaierror s) = "dns_error") ∧
    (∀ s, normalizeError (Exc.unexpected s) = s) :=
  check_unexpected_breaks_with_str_error c1req c1env "boom" rfl

/-! ## Claim C5: an HTTP response is terminal -/

/-- C5: if the first `k` attempts fail with transport-family exceptions
and attempt `k` receives an HTTP response, `check` stops at attempt
`k + 1` — no retry after a response; the code is recorded in
`http_status`; a code in `[200, 400)` yields `UP` and a code `≥ 400`
yields `DOWN`. -/
theorem check_response_terminal (req : CheckRequest) (env : Nat → AttemptEvent)
    (k : Nat) (code : Int) (hk : k ≤ req.retry_count)
    (hprior : ∀ i, i < k → (env i).isTransportRaise = true)
    (hresp : env k = AttemptEvent.response code) :
    (check req env).http_status = some code ∧
    (check req env).attemptsMade = k + 1 ∧
    (200 ≤ code ∧ code < 400 → (check req env).status = Status.UP) ∧
    (400 ≤ code → (check req env).status = Status.DOWN) := by
  rw [check_response_eq req env k code hk hprior hresp]
  refine ⟨rfl, rfl, fun hc => by simp [hc], fun hc => ?_⟩
  have : ¬(200 ≤ code ∧ code < 400) := by omega
  simp [this]

/-- The C5 witness environment: a timeout on attempt 0, then HTTP 503. -/
def c5env : Nat → AttemptEvent :=
  fun i => if i = 0 then AttemptEvent.raising Exc.timeoutExc else AttemptEvent.response 503

/-- Witness for C5: one transport failure, then an HTTP 503 response;
the probe stops after two attempts with `DOWN` and `http_status = 503`. -/
theorem check_response_terminal_witness :
    (1 : Nat) ≤ 3 ∧ 400 ≤ (503 : Int) ∧
    (check ⟨"t", "http://x", 1000, 3, 100⟩ c5env).http_status = some 503 ∧
    (check ⟨"t", "http://x", 1000, 3, 100⟩ c5env).attemptsMade = 1 + 1 ∧
    (check ⟨"t", "http://x", 1000, 3, 100⟩ c5env).status = Status.DOWN := by
  have h := check_response_terminal ⟨"t", "http://x", 1000, 3, 100⟩ c5env 1 503
    (by decide) (by decide) (by decide)
  exact ⟨by decide, by decide, h.1, h.2.1, h.2.2.2 (by decide)⟩

/-! ## Claim C6: retry budget and backoff -/

/-- C6: `check` makes at most `retry_count + 1` attempts; when every
attempt fails with a transport-family exception it performs all
`retry_count + 1` attempts with a backoff sleep after each failure except
the last (`retry_count` sleeps of `retry_backoff_ms`), and returns `DOWN`
with the error kind set. -/
theorem check_retry_budget (req : CheckRequest) (env : Nat → AttemptEvent) :
    (check req env).attemptsMade ≤ req.retry_count + 1 ∧
    ((∀ i, i ≤ req.retry_count → (env i).isTransportRaise = true) →
      (check req env).status = Status.DOWN ∧
      (check req env).error.isSome = true ∧
      (check req env).attemptsMade = req.retry_count + 1 ∧
      (check req env).sleeps = req.retry_count) := by
  constructor
  · have h := runAttempts_attemptsMade_le ((List.range (req.retry_count + 1)).map env) none
    simpa [check] using h
  · intro hall
    have hmem : ∀ ev ∈ (List.range (req.retry_count + 1)).map env, ev.isTransportRaise = true := by
      intro ev hev
      rcases List.mem_map.mp hev with ⟨i, hi, rfl⟩
      have hilt := List.mem_range.mp hi
      exact hall i (by omega)
    have hne : (List.range (req.retry_count + 1)).map env ≠ [] := by
      simp [List.range_succ_eq_map]
    rw [check, runAttempts_all_transport _ none hne hmem]
    refine ⟨rfl, ?_, ?_, ?_⟩
    · simpa using errAfter_isSome _ none hne hmem
    · simp
    · simp

/-- The C6 witness environment: every attempt times out. -/
def c6env : Nat → AttemptEvent := fun _ => AttemptEvent.raising Exc.timeoutExc

/-- Witness for C6: `retry_count = 2` and every attempt timing out gives
three attempts, two backoff sleeps, `DOWN` and a set error. -/
theorem check_retry_budget_witness :
    (check ⟨"t", "http://x", 1000, 2, 100⟩ c6env).attemptsMade ≤ 2 + 1 ∧
    (check ⟨"t", "http://x", 1000, 2, 100⟩ c6env).status = Status.DOWN ∧
    (check ⟨"t", "http://x", 1000, 2, 100⟩ c6env).error.isSome = true ∧
    (check ⟨"t", "http://x", 1000, 2, 100⟩ c6env).attemptsMade = 2 + 1 ∧
    (check ⟨"t", "http://x", 1000, 2, 100⟩ c6env).sleeps = 2 := by
  have h := check_retry_budget ⟨"t", "http://x", 1000, 2, 100⟩ c6env
  exact ⟨h.1, h.2 (fun i _ => by simp [c6env, AttemptEvent.isTransportRaise, Exc.isHttpxTransport])⟩

/-! ## Claim C10: a successful probe can carry a stale error kind -/

/-- C10: when an earlier attempt fails with a transport-family exception
and a later attempt receives a response with status in `[200, 400)`, the
outcome has status `UP` while the error field still holds the normalized
error of the failed attempt — the error is never cleared on success. -/
theorem check_stale_error_on_success (req : CheckRequest) (env : Nat → AttemptEvent)
    (k : Nat) (code : Int) (hk1 : 1 ≤ k) (hk : k ≤ req.retry_count)
    (hprior : ∀ i, i < k → (env i).isTransportRaise = true)
    (hresp : env k = AttemptEvent.response code)
    (hcode : 200 ≤ code ∧ code < 400) :
    (check req env).status = Status.UP ∧
    (check req env).error.isSome = true := by
  rw [check_response_eq req env k code hk hprior hresp]
  refine ⟨by simp [hcode], ?_⟩
  have hne : (List.range k).map env ≠ [] := by
    cases k with
    | zero => omega
    | succ n => simp [List.range_succ_eq_map]
  have hmem : ∀ ev ∈ (List.range k).map env, ev.isTransportRaise = true := by
    intro ev hev
    rcases List.mem_map.mp hev with ⟨i, hi, rfl⟩
    exact hprior i (List.mem_range.mp hi)
  simpa using errAfter_isSome _ none hne hmem

/-- Witness for C10: a connect error on attempt 0 followed by HTTP 200 on
attempt 1 produces `UP` with a non-null error field. -/
theorem check_stale_error_on_success_witness :
    1 ≤ 1 ∧ (1 : Nat) ≤ 1 ∧ 200 ≤ (200 : Int) ∧ (200 : Int) < 400 ∧
    ((check ⟨"t", "http://x", 1000, 1, 100⟩
        (fun i => if i = 0 then AttemptEvent.raising Exc.connectError
                  else AttemptEvent.response 200)).status = Status.UP ∧
      (check ⟨"t", "http://x", 1000, 1, 100⟩
        (fun i => if i = 0 then AttemptEvent.raising Exc.connectError
                  else AttemptEvent.response 200)).error.isSome = true) :=
  ⟨by decide, by decide, by decide, by decide,
    check_stale_error_on_success ⟨"t", "http://x", 1000, 1, 100⟩
      (fun i => if i = 0 then AttemptEvent.raising Exc.connectError
                else AttemptEvent.response 200)
      1 200 (by decide) (by decide) (by decide) (by decide) (by decide)⟩

/-! ## Lemmas about the availability engine -/

theorem accumulate_sum (l : List CheckRow) (s : AccState) :
    (accumulate s l).uptime + (accumulate s l).downtime =
      s.uptime + s.downtime + ((accumulate s l).cur_ts - s.cur_ts) := by
  induction l generalizing s with
  | nil => simp [accumulate]
  | cons c rest ih =>
    by_cases hlt : c.checked_at < s.cur_ts
    · simpa [accumulate, hlt] using ih s
    · by_cases hδ : 0 < c.checked_at - s.cur_ts
      · by_cases hst : s.cur_status = Status.UP
        · simp only [accumulate, hlt, if_false, hδ, if_true, hst]
          rw [ih]
          simp
          omega
        · simp only [accumulate, hlt, if_false, hδ, if_true, hst]
          rw [ih]
          simp
          omega
      · simp only [accumulate, hlt, if_false, hδ, if_false]
        rw [ih]
        simp
        omega

theorem accumulate_cursor_mono (l : List CheckRow) (s : AccState) :
    s.cur_ts ≤ (accumulate s l).cur_ts := by
  induction l generalizing s with
  | nil => simp [accumulate]
  | cons c rest ih =>
    by_cases hlt : c.checked_at < s.cur_ts
    · simpa [accumulate, hlt] using ih s
    · by_cases hδ : 0 < c.checked_at - s.cur_ts
      · by_cases hst : s.cur_status = Status.UP
        · simp only [accumulate, hlt, if_false, hδ, if_true, hst]
          refine le_trans ?_ (ih _)
          simp
          omega
        · simp only [accumulate, hlt, if_false, hδ, if_true, hst]
          refine le_trans ?_ (ih _)
          simp
          omega
      · simp only [accumulate, hlt, if_false, hδ, if_false]
        refine le_trans ?_ (ih _)
        simp
        omega

theorem accumulate_cursor_le (l : List CheckRow) (s : AccState) (B : Int)
    (hl : ∀ c ∈ l, c.checked_at ≤ B) (hs : s.cur_ts ≤ B) :
    (accumulate s l).cur_ts ≤ B := by
  induction l generalizing s with
  | nil => simpa [accumulate]
  | cons c rest ih =>
    have hc : c.checked_at ≤ B := hl c (List.mem_cons_self _ _)
    have hrest : ∀ x ∈ rest, x.checked_at ≤ B := fun x hx => hl x (List.mem_cons_of_mem _ hx)
    by_cases hlt : c.checked_at < s.cur_ts
    · simpa [accumulate, hlt] using ih s hrest hs
    · by_cases hδ : 0 < c.checked_at - s.cur_ts
      · by_cases hst : s.cur_status = Status.UP
        · simp only [accumulate, hlt, if_false, hδ, if_true, hst]
          exact ih _ hrest (by simpa)
        · simp only [accumulate, hlt, if_false, hδ, if_true, hst]
          exact ih _ hrest (by simpa)
      · simp only [accumulate, hlt, if_false, hδ, if_false]
        exact ih _ hrest (by simpa)

theorem accumulate_counts_mono (l : List CheckRow) (s : AccState) :
    s.uptime ≤ (accumulate s l).uptime ∧ s.downtime ≤ (accumulate s l).downtime := by
  induction l generalizing s with
  | nil => simp [accumulate]
  | cons c rest ih =>
    by_cases hlt : c.checked_at < s.cur_ts
    · simpa [accumulate, hlt] using ih s
    · by_cases hδ : 0 < c.checked_at - s.cur_ts
      · by_cases hst : s.cur_status = Status.UP
        · simp only [accumulate, hlt, if_false, hδ, if_true, hst]
          refine ⟨le_trans ?_ (ih _).1, le_trans ?_ (ih _).2⟩ <;> simp <;> omega
        · simp only [accumulate, hlt, if_false, hδ, if_true, hst]
          refine ⟨le_trans ?_ (ih _).1, le_trans ?_ (ih _).2⟩ <;> simp <;> omega
      · simp only [accumulate, hlt, if_false, hδ, if_false]
        refine ⟨le_trans ?_ (ih _).1, le_trans ?_ (ih _).2⟩ <;> simp

theorem addTail_sum (now : Int) (s : AccState) (h : s.cur_ts ≤ now) :
    (addTail now s).uptime + (addTail now s).downtime =
      s.uptime + s.downtime + (now - s.cur_ts) := by
  by_cases ht : 0 < now - s.cur_ts
  · by_cases hst : s.cur_status = Status.UP
    · simp [addTail, ht, hst] <;> omega
    · simp [addTail, ht, hst] <;> omega
  · simp [addTail, ht] <;> omega

theorem addTail_counts_mono (now : Int) (s : AccState) :
    s.uptime ≤ (addTail now s).uptime ∧ s.downtime ≤ (addTail now s).downtime := by
  by_cases ht : 0 < now - s.cur_ts
  · by_cases hst : s.cur_status = Status.UP
    · simp only [addTail, ht, if_true, hst]
      constructor <;> simp <;> omega
    · simp only [addTail, ht, if_true, hst]
      constructor <;> simp <;> omega
  · simp [addTail, ht]

/-- The total of the main path of `uptime_window` telescopes: starting
from zero counters at cursor `t0`, the sum of uptime and downtime after
folding the samples and adding the tail is exactly `now - t0`, provided
the cursor and every sample timestamp are at most `now`. -/
theorem run_total (now : Int) (init : AccState) (rest : List CheckRow)
    (h0u : init.uptime = 0) (h0d : init.downtime = 0)
    (hts : init.cur_ts ≤ now) (hrest : ∀ c ∈ rest, c.checked_at ≤ now) :
    (addTail now (accumulate init rest)).uptime +
      (addTail now (accumulate init rest)).downtime = now - init.cur_ts := by
  have hcur : (accumulate init rest).cur_ts ≤ now := accumulate_cursor_le rest init now hrest hts
  rw [addTail_sum now _ hcur, accumulate_sum rest init, h0u, h0d]
  ring

/-- The total of the main path is never negative when the counters start
at zero. -/
theorem run_total_nonneg (now : Int) (init : AccState) (rest : List CheckRow)
    (h0u : init.uptime = 0) (h0d : init.downtime = 0) :
    0 ≤ (addTail now (accumulate init rest)).uptime +
      (addTail now (accumulate init rest)).downtime := by
  have h1 := accumulate_counts_mono rest init
  have h2 := addTail_counts_mono now (accumulate init rest)
  omega

/-! ## Claim C2: window total bound -/

/-- C2 counterexample: over a 1-hour window ending at `now = 3600` with
no pre-window sample, the unknown-as-down policy off and a single sample
at exactly the window start, `uptime_window` returns `uptime + downtime =
1 * 3600`: equality holds although neither a pre-window sample exists nor
the unknown-down policy was applied to an empty window, refuting the
claimed "equality iff". -/
theorem uptime_window_equality_without_previous :
    (uptimeWindow 3600 1 none false none
        [{ status := Status.UP, checked_at := 0 }]).uptime_seconds +
      (uptimeWindow 3600 1 none false none
        [{ status := Status.UP, checked_at := 0 }]).downtime_seconds = 1 * 3600 := by
  decide

/-- C2 (amended): for rows timestamped inside the window `[now - H*3600,
now]`, uptime plus downtime is at most `H*3600`, with equality iff a
pre-window sample exists, or the unknown-as-down policy was applied to an
empty window, or there is no pre-window sample and the first in-window
sample sits exactly at the window start. -/
theorem uptime_window_total_bound (now windowHours : Int) (sla : Option Int) (aud : Bool)
    (previous : Option CheckRow) (checks : List CheckRow)
    (hH : 1 ≤ windowHours)
    (hin : ∀ c ∈ checks, now - windowHours * 3600 ≤ c.checked_at ∧ c.checked_at ≤ now) :
    (uptimeWindow now windowHours sla aud previous checks).uptime_seconds +
        (uptimeWindow now windowHours sla aud previous checks).downtime_seconds
      ≤ windowHours * 3600 ∧
    ((uptimeWindow now windowHours sla aud previous checks).uptime_seconds +
        (uptimeWindow now windowHours sla aud previous checks).downtime_seconds
        = windowHours * 3600 ↔
      previous ≠ none ∨ (aud = true ∧ checks = []) ∨
      (∃ c rest, checks = c :: rest ∧ c.checked_at = now - windowHours * 3600)) := by
  cases previous with
  | some p =>
    simp only [uptimeWindow]
    rw [if_neg (by simp)]
    simp only []
    rw [run_total now _ checks rfl rfl (by simp; omega) (fun c hc => (hin c hc).2)]
    constructor
    · simp
    · constructor
      · intro _
        exact Or.inl (by simp)
      · intro _
        simp
  | none =>
    cases checks with
    | nil =>
      cases aud with
      | false =>
        simp only [uptimeWindow]
        rw [if_pos (by simp)]
        constructor
        · simp
          omega
        · constructor
          · intro h
            simp at h
            omega
          · intro h
            rcases h with h | h | h
            · exact absurd rfl h
            · exact absurd h.1 (by simp)
            · rcases h with ⟨c, rest, hc, _⟩
              exact absurd hc (by simp)
      | true =>
        simp only [uptimeWindow]
        rw [if_neg (by simp)]
        simp only []
        rw [run_total now _ [] rfl rfl (by simp; omega) (by simp)]
        constructor
        · simp
        · constructor
          · intro _
            exact Or.inr (Or.inl (by simp))
          · intro _
            simp
    | cons c rest' =>
      have hc := hin c (List.mem_cons_self _ _)
      simp only [uptimeWindow]
      rw [if_neg (by simp)]
      simp only []
      rw [run_total now _ rest' rfl rfl (by simp; omega)
        (fun x hx => (hin x (List.mem_cons_of_mem _ hx)).2)]
      constructor
      · simp
        omega
      · constructor
        · intro h
          refine Or.inr (Or.inr ⟨c, rest', rfl, ?_⟩)
          simp at h
          omega
        · intro h
          rcases h with h | h | h
          · exact absurd rfl h
          · exact absurd h.2 (by simp)
          · rcases h with ⟨c', rest'', hc', hts⟩
            rw [List.cons.injEq] at hc'
            rw [← hc'.1] at hts
            simp
            omega

/-- The C2 witness pre-window sample. -/
def c2prev : Option CheckRow := some { status := Status.UP, checked_at := -10 }

/-- The C2 witness in-window samples. -/
def c2checks : List CheckRow :=
  [{ status := Status.DOWN, checked_at := 3600 }, { status := Status.UP, checked_at := 5400 }]

/-- Witness for the amended C2 theorem: a pre-window UP sample, a DOWN
sample one hour in and an UP sample ninety minutes in over a 24-hour
window ending at 86400 reach the full `24 * 3600` total. -/
theorem uptime_window_total_bound_witness :
    (1 : Int) ≤ 24 ∧
    ((uptimeWindow 86400 24 none true c2prev c2checks).uptime_seconds +
        (uptimeWindow 86400 24 none true c2prev c2checks).downtime_seconds ≤ 24 * 3600) ∧
    ((uptimeWindow 86400 24 none true c2prev c2checks).uptime_seconds +
        (uptimeWindow 86400 24 none true c2prev c2checks).downtime_seconds = 24 * 3600 ↔
      c2prev ≠ none ∨ (true = true ∧ c2checks = []) ∨
      (∃ c rest, c2checks = c :: rest ∧ c.checked_at = 86400 - 24 * 3600)) := by
  have h := uptime_window_total_bound 86400 24 none true c2prev c2checks
    (by decide) (by decide)
  exact ⟨by decide, h.1, h.2⟩

/-! ## Claim C9: null availability instead of an error -/

/-- Helper: the availability field shape of the main path. -/
theorem opt_if_pos_none_iff (T : Int) (hT : 0 ≤ T) (a : ℚ) :
    ((if 0 < T then some a else none) = (none : Option ℚ)) ↔ T = 0 := by
  by_cases h : 0 < T
  · simp [h]
    omega
  · simp [h]
    omega

/-- C9: with no pre-window sample, an empty window and the
unknown-as-down policy off, `uptime_window` returns zero uptime and
downtime with `availability = null` and `sla_met = null` rather than
erroring; moreover, for every input, availability is null exactly when
`uptime_seconds + downtime_seconds` is zero. -/
theorem uptime_window_null_availability (now windowHours : Int) (sla : Option Int)
    (aud : Bool) (previous : Option CheckRow) (checks : List CheckRow) :
    uptimeWindow now windowHours sla false none [] =
      { uptime_seconds := 0, downtime_seconds := 0, availability := none
        sample_count := 0, sla_met := none } ∧
    ((uptimeWindow now windowHours sla aud previous checks).availability = none ↔
      (uptimeWindow now windowHours sla aud previous checks).uptime_seconds +
        (uptimeWindow now windowHours sla aud previous checks).downtime_seconds = 0) := by
  constructor
  · simp only [uptimeWindow]
    rw [if_pos (by simp)]
  · cases previous with
    | some p =>
      simp only [uptimeWindow]
      rw [if_neg (by simp)]
      simp only []
      exact opt_if_pos_none_iff _ (run_total_nonneg now _ checks rfl rfl) _
    | none =>
      cases checks with
      | nil =>
        cases aud with
        | false =>
          simp only [uptimeWindow]
          rw [if_pos (by simp)]
          simp
        | true =>
          simp only [uptimeWindow]
          rw [if_neg (by simp)]
          simp only []
          exact opt_if_pos_none_iff _ (run_total_nonneg now _ [] rfl rfl) _
      | cons c rest' =>
        simp only [uptimeWindow]
        rw [if_neg (by simp)]
        simp only []
        exact opt_if_pos_none_iff _ (run_total_nonneg now _ rest' rfl rfl) _

/-! ## Lemmas about the incident tracker -/

theorem hasOpen_all_resolved (l : List Incident) (h : ∀ i ∈ l, i.resolved = true) :
    hasOpen l = false := by
  simp only [hasOpen, List.any_eq_false]
  intro i hi
  simp [h i hi]

theorem all_resolved_of_hasOpen_false (l : List Incident) (h : hasOpen l = false) :
    ∀ i ∈ l, i.resolved = true := by
  simp only [hasOpen, List.any_eq_false] at h
  intro i hi
  have := h i hi
  simpa using this

theorem setFirstOpen_all_resolved (f : Incident → Incident) (l : List Incident)
    (h : ∀ i ∈ l, i.resolved = true) : setFirstOpen f l = l := by
  induction l with
  | nil => rfl
  | cons x rest ih =>
    have hx : x.resolved = true := h x (List.mem_cons_self _ _)
    simp [setFirstOpen, hx, ih (fun i hi => h i (List.mem_cons_of_mem _ hi))]

theorem hasOpen_append_open (pre post : List Incident) (x : Incident)
    (hx : x.resolved = false) : hasOpen (pre ++ x :: post) = true := by
  simp only [hasOpen, List.any_eq_true]
  exact ⟨x, by simp, by simp [hx]⟩

theorem setFirstOpen_append (f : Incident → Incident) (pre post : List Incident) (x : Incident)
    (hpre : ∀ i ∈ pre, i.resolved = true) (hx : x.resolved = false) :
    setFirstOpen f (pre ++ x :: post) = pre ++ f x :: post := by
  induction pre with
  | nil => simp [setFirstOpen, hx]
  | cons y ys ih =>
    have hy : y.resolved = true := hpre y (List.mem_cons_self _ _)
    have ih' := ih (fun i hi => hpre i (List.mem_cons_of_mem _ hi))
    simp only [List.cons_append, setFirstOpen, hy, if_true]
    exact congrArg (fun l => y :: l) ih'

theorem length_setFirstOpen (f : Incident → Incident) (l : List Incident) :
    (setFirstOpen f l).length = l.length := by
  induction l with
  | nil => rfl
  | cons x rest ih =>
    by_cases hx : x.resolved <;> simp [setFirstOpen, hx, ih]

theorem hasOpen_iff_countOpen_pos (l : List Incident) :
    hasOpen l = true ↔ 0 < countOpen l := by
  simp only [hasOpen, countOpen, List.any_eq_true, List.countP_pos]

theorem setFirstOpen_preserving_counts (f : Incident → Incident)
    (hf : ∀ i, (f i).resolved = i.resolved) (l : List Incident) :
    countOpen (setFirstOpen f l) = countOpen l ∧
    countResolved (setFirstOpen f l) = countResolved l := by
  induction l with
  | nil => exact ⟨rfl, rfl⟩
  | cons x rest ih =>
    by_cases hx : x.resolved
    · simp only [setFirstOpen, hx, if_true, countOpen, countResolved, List.countP_cons] at ih ⊢
      omega
    · simp only [setFirstOpen, hx, if_false, Bool.false_eq_true, countOpen, countResolved,
        List.countP_cons, hf x, hx]
      exact ⟨trivial, trivial⟩

theorem setFirstOpen_close_counts (f : Incident → Incident)
    (hf : ∀ i, (f i).resolved = true) (l : List Incident) (hop : hasOpen l = true) :
    countResolved (setFirstOpen f l) = countResolved l + 1 ∧
    countOpen (setFirstOpen f l) + 1 = countOpen l := by
  induction l with
  | nil => simp [hasOpen] at hop
  | cons x rest ih =>
    by_cases hx : x.resolved
    · have hop' : hasOpen rest = true := by
        simp only [hasOpen, List.any_cons, hx] at hop ⊢
        simpa using hop
      have := ih hop'
      simp only [setFirstOpen, hx, if_true, countOpen, countResolved, List.countP_cons] at this ⊢
      omega
    · simp only [setFirstOpen, hx, if_false, Bool.false_eq_true, countOpen, countResolved,
        List.countP_cons, hf x, hx]
      simp

theorem countOpenedEm_append (a b : List Emission) :
    countOpenedEm (a ++ b) = countOpenedEm a + countOpenedEm b :=
  List.countP_append _ a b

theorem countResolvedEm_append (a b : List Emission) :
    countResolvedEm (a ++ b) = countResolvedEm a + countResolvedEm b :=
  List.countP_append _ a b

/-! ## Claim C3: incident state machine transitions -/

/-- C3: the four transition rows of `_update_incident`.  `l` is a state
with no open incident (every row resolved); `pre ++ x :: post` is a state
whose first open incident is `x` (every row before it resolved).  On DOWN
with no open incident exactly the one new open row
`{start_ts = t, end_ts = null, last_status = DOWN, resolved = false}` is
appended; on UP with no open incident nothing changes; on UP with open
incident `x` only `x` becomes `{end_ts = t, last_status = UP,
resolved = true}` and no row is inserted; on DOWN with open incident `x`
only `x`'s `last_status` is refreshed. -/
theorem update_incident_transitions (pre post l : List Incident) (x : Incident) (t : Int)
    (hpre : ∀ i ∈ pre, i.resolved = true) (hx : x.resolved = false)
    (hl : ∀ i ∈ l, i.resolved = true) :
    updateIncident l Status.DOWN t =
      l ++ [{ start_ts := t, end_ts := none, last_status := Status.DOWN, resolved := false }] ∧
    updateIncident l Status.UP t = l ∧
    updateIncident (pre ++ x :: post) Status.UP t =
      pre ++ { x with end_ts := some t, last_status := Status.UP, resolved := true } :: post ∧
    updateIncident (pre ++ x :: post) Status.DOWN t =
      pre ++ { x with last_status := Status.DOWN } :: post := by
  refine ⟨?_, ?_, ?_, ?_⟩
  · simp [updateIncident, hasOpen_all_resolved l hl]
  · simp [updateIncident, setFirstOpen_all_resolved _ l hl]
  · simp [updateIncident, setFirstOpen_append _ pre post x hpre hx]
  · simp [updateIncident, hasOpen_append_open pre post x hx,
      setFirstOpen_append _ pre post x hpre hx]

/-- Witness for C3 at concrete states: the empty incident list and a
single open incident. -/
theorem update_incident_transitions_witness :
    updateIncident [] Status.DOWN 7 =
      [{ start_ts := 7, end_ts := none, last_status := Status.DOWN, resolved := false }] ∧
    updateIncident [] Status.UP 7 = ([] : List Incident) ∧
    updateIncident [{ start_ts := 0, end_ts := none, last_status := Status.DOWN, resolved := false }]
        Status.UP 7 =
      [{ start_ts := 0, end_ts := some 7, last_status := Status.UP, resolved := true }] ∧
    updateIncident [{ start_ts := 0, end_ts := none, last_status := Status.DOWN, resolved := false }]
        Status.DOWN 7 =
      [{ start_ts := 0, end_ts := none, last_status := Status.DOWN, resolved := false }] := by
  have h := update_incident_transitions [] []
    [] { start_ts := 0, end_ts := none, last_status := Status.DOWN, resolved := false } 7
    (by simp) rfl (by simp)
  exact h

/-! ## Claim C4: transition emissions match incidents opened and closed -/

theorem countOpen_zero_of_hasOpen_false (l : List Incident) (h : hasOpen l = false) :
    countOpen l = 0 := by
  by_cases hpos : 0 < countOpen l
  · have := (hasOpen_iff_countOpen_pos l).mpr hpos
    rw [h] at this
    exact absurd this (by simp)
  · omega

theorem hasOpen_false_of_countOpen_zero (l : List Incident) (h : countOpen l = 0) :
    hasOpen l = false := by
  cases hl : hasOpen l with
  | false => rfl
  | true =>
    have := (hasOpen_iff_countOpen_pos l).mp hl
    omega

theorem processResult_step (incs : List Incident) (st : Status) (t : Int)
    (h : countOpen incs ≤ 1) :
    countOpen (processResult incs st t).1 ≤ 1 ∧
    (processResult incs st t).1.length = incs.length + countOpenedEm (processResult incs st t).2 ∧
    countResolved (processResult incs st t).1 =
      countResolved incs + countResolvedEm (processResult incs st t).2 := by
  cases st with
  | DOWN =>
    cases hop : hasOpen incs with
    | false =>
      have hupd : updateIncident incs Status.DOWN t =
          incs ++ [{ start_ts := t, end_ts := none, last_status := Status.DOWN, resolved := false }] := by
        simp [updateIncident, hop]
      have hop' : hasOpen (updateIncident incs Status.DOWN t) = true := by
        rw [hupd]
        exact hasOpen_append_open incs [] _ rfl
      have hzero : countOpen incs = 0 := countOpen_zero_of_hasOpen_false incs hop
      simp only [processResult, if_pos (And.intro hop hop')]
      rw [hupd]
      refine ⟨?_, ?_, ?_⟩
      · have hca : countOpen (incs ++
            [{ start_ts := t, end_ts := none, last_status := Status.DOWN, resolved := false }]) =
            countOpen incs + 1 := by
          simp [countOpen, List.countP_append]
        rw [hca]
        omega
      · simp [countOpenedEm]
      · simp [countResolved, List.countP_append, countResolvedEm]
    | true =>
      have hupd : updateIncident incs Status.DOWN t =
          setFirstOpen (fun i => { i with last_status := Status.DOWN }) incs := by
        simp [updateIncident, hop]
      have hpres := setFirstOpen_preserving_counts
        (fun i => { i with last_status := Status.DOWN }) (fun i => rfl) incs
      have hop' : hasOpen (updateIncident incs Status.DOWN t) = true := by
        rw [hupd]
        rw [hasOpen_iff_countOpen_pos, hpres.1]
        exact (hasOpen_iff_countOpen_pos incs).mp hop
      have hcond1 : ¬(hasOpen incs = false ∧ hasOpen (updateIncident incs Status.DOWN t) = true) := by
        intro hc
        rw [hop] at hc
        exact absurd hc.1 (by simp)
      have hcond2 : ¬(hasOpen incs = true ∧ hasOpen (updateIncident incs Status.DOWN t) = false) := by
        intro hc
        rw [hop'] at hc
        exact absurd hc.2 (by simp)
      simp only [processResult, if_neg hcond1, if_neg hcond2]
      rw [hupd]
      refine ⟨?_, ?_, ?_⟩
      · rw [hpres.1]
        exact h
      · simp [countOpenedEm, length_setFirstOpen]
      · simp [countResolvedEm, hpres.2]
  | UP =>
    cases hop : hasOpen incs with
    | false =>
      have hall := all_resolved_of_hasOpen_false incs hop
      have hupd : updateIncident incs Status.UP t = incs := by
        simp [updateIncident, setFirstOpen_all_resolved _ incs hall]
      have hcond1 : ¬(hasOpen incs = false ∧ hasOpen (updateIncident incs Status.UP t) = true) := by
        intro hc
        rw [hupd, hop] at hc
        exact absurd hc.2 (by simp)
      have hcond2 : ¬(hasOpen incs = true ∧ hasOpen (updateIncident incs Status.UP t) = false) := by
        intro hc
        rw [hop] at hc
        exact absurd hc.1 (by simp)
      simp only [processResult, if_neg hcond1, if_neg hcond2]
      rw [hupd]
      exact ⟨h, by simp [countOpenedEm], by simp [countResolvedEm]⟩
    | true =>
      have hupd : updateIncident incs Status.UP t =
          setFirstOpen
            (fun i => { i with end_ts := some t, last_status := Status.UP, resolved := true })
            incs := by
        simp [updateIncident]
      have hclose := setFirstOpen_close_counts
        (fun i => { i with end_ts := some t, last_status := Status.UP, resolved := true })
        (fun i => rfl) incs hop
      have hop' : hasOpen (updateIncident incs Status.UP t) = false := by
        rw [hupd]
        apply hasOpen_false_of_countOpen_zero
        have h1 := hclose.2
        have h2 := (hasOpen_iff_countOpen_pos incs).mp hop
        omega
      have hcond1 : ¬(hasOpen incs = false ∧ hasOpen (updateIncident incs Status.UP t) = true) := by
        intro hc
        rw [hop] at hc
        exact absurd hc.1 (by simp)
      simp only [processResult, if_neg hcond1, if_pos (And.intro hop hop')]
      rw [hupd]
      refine ⟨?_, ?_, ?_⟩
      · have h1 := hclose.2
        omega
      · simp [countOpenedEm, length_setFirstOpen]
      · rw [hclose.1]
        simp [countResolvedEm]

/-- C4: over any sequence of probe outcomes, starting from a state
obeying the at-most-one-open-incident invariant, the number of
incident-opened emissions equals the number of incidents opened (the
growth of the incident list, which only inserts) and the number of
incident-resolved emissions equals the number of incidents closed (the
growth of the resolved count, which is never unset). -/
theorem transition_emission_counts (outcomes : List (Status × Int)) (incs : List Incident)
    (h : countOpen incs ≤ 1) :
    (processSeq incs outcomes).1.length =
      incs.length + countOpenedEm (processSeq incs outcomes).2 ∧
    countResolved (processSeq incs outcomes).1 =
      countResolved incs + countResolvedEm (processSeq incs outcomes).2 := by
  induction outcomes generalizing incs with
  | nil => simp [processSeq, countOpenedEm, countResolvedEm]
  | cons o rest ih =>
    obtain ⟨st, t⟩ := o
    have hstep := processResult_step incs st t h
    have hrec := ih (processResult incs st t).1 hstep.1
    simp only [processSeq, countOpenedEm_append, countResolvedEm_append]
    omega

/-- Witness for C4: starting healthy, DOWN at `t = 1` then UP at `t = 2`
opens one incident with one opened emission and closes it with one
resolved emission. -/
theorem transition_emission_counts_witness :
    countOpen ([] : List Incident) ≤ 1 ∧
    ((processSeq [] [(Status.DOWN, 1), (Status.UP, 2)]).1.length =
      ([] : List Incident).length +
        countOpenedEm (processSeq [] [(Status.DOWN, 1), (Status.UP, 2)]).2 ∧
    countResolved (processSeq [] [(Status.DOWN, 1), (Status.UP, 2)]).1 =
      countResolved ([] : List Incident) +
        countResolvedEm (processSeq [] [(Status.DOWN, 1), (Status.UP, 2)]).2) :=
  ⟨by decide, transition_emission_counts [(Status.DOWN, 1), (Status.UP, 2)] [] (by decide)⟩

/-! ## Claim C7: the completion step -/

/-- C7: `_persist_result` appends exactly the probe's `CheckResult` row,
applies the incident transition of C3 to the incident rows, sets
`next_run_at` to `result.checked_at + check_interval_sec`, and clears
`lease_owner` and `lease_expires_at`; the new `next_run_at` does not
depend on the previous `next_run_at` (the drift policy). -/
theorem persist_result_complete (db : WorkerDb) (result : CheckResultRow) (x : Int) :
    (persistResult db result).results = db.results ++ [result] ∧
    (persistResult db result).incidents =
      updateIncident db.incidents result.status result.checked_at ∧
    (persistResult db result).state.next_run_at = result.checked_at + db.check_interval_sec ∧
    (persistResult db result).state.lease_owner = none ∧
    (persistResult db result).state.lease_expires_at = none ∧
    (persistResult db result).state.target_id = db.state.target_id ∧
    persistResult { db with state := { db.state with next_run_at := x } } result =
      persistResult db result :=
  ⟨rfl, rfl, rfl, rfl, rfl, rfl, rfl⟩

/-! ## Claim C8: idempotent scheduler bootstrap -/

/-- C8: `ensure_entries` gives every target a scheduler row; the rows it
adds are exactly rows with `next_run_at = now` and no lease for targets
that lacked one; and running it a second time (at any later `now`)
changes nothing. -/
theorem ensure_entries_idempotent (now now' : Int) (targets : List Nat)
    (states : List SchedRow) (tid : Nat) (htid : tid ∈ targets) :
    hasStateFor (ensureEntries now targets states) tid = true ∧
    (∀ r ∈ ensureEntries now targets states,
      r ∈ states ∨
        (hasStateFor states r.target_id = false ∧ r.target_id ∈ targets ∧
          r.next_run_at = now ∧ r.lease_owner = none ∧ r.lease_expires_at = none)) ∧
    ensureEntries now' targets (ensureEntries now targets states) =
      ensureEntries now targets states := by
  have hcover : ∀ u ∈ targets, hasStateFor (ensureEntries now targets states) u = true := by
    intro u hu
    cases hs : hasStateFor states u with
    | true =>
      simp only [ensureEntries, hasStateFor, List.any_append]
      simp only [hasStateFor] at hs
      simp [hs]
    | false =>
      have hmem : u ∈ targets.filter (fun v => !hasStateFor states v) :=
        List.mem_filter.mpr ⟨hu, by simp [hs]⟩
      have hany : ((targets.filter (fun v => !hasStateFor states v)).map
          (freshRow now)).any (fun r => r.target_id == u) = true := by
        rw [List.any_eq_true]
        exact ⟨freshRow now u, List.mem_map.mpr ⟨u, hmem, rfl⟩, by simp [freshRow]⟩
      rw [ensureEntries, hasStateFor, List.any_append]
      simp only [hasStateFor] at hs
      rw [hs, hany]
      rfl
  refine ⟨hcover tid htid, ?_, ?_⟩
  · intro r hr
    rcases List.mem_append.mp hr with hl | hrr
    · exact Or.inl hl
    · rcases List.mem_map.mp hrr with ⟨v, hv, rfl⟩
      rcases List.mem_filter.mp hv with ⟨hvt, hvp⟩
      refine Or.inr ⟨by simpa using hvp, hvt, rfl, rfl, rfl⟩
  · have hfe : targets.filter
        (fun v => !hasStateFor (ensureEntries now targets states) v) = [] := by
      rw [List.filter_eq_nil]
      intro v hv
      simp [hcover v hv]
    conv_lhs => rw [ensureEntries, hfe]
    simp

/-- The pre-existing scheduler rows of the C8 witness: target 2 already
has a row, target 1 does not. -/
def c8states : List SchedRow := [freshRow 0 2]

/-- Witness for C8 at a concrete state: one target with a row, one
without. -/
theorem ensure_entries_idempotent_witness :
    (1 : Nat) ∈ [1, 2] ∧
    (hasStateFor (ensureEntries 5 [1, 2] c8states) 1 = true ∧
    (∀ r ∈ ensureEntries 5 [1, 2] c8states,
      r ∈ c8states ∨
        (hasStateFor c8states r.target_id = false ∧ r.target_id ∈ [1, 2] ∧
          r.next_run_at = 5 ∧ r.lease_owner = none ∧ r.lease_expires_at = none)) ∧
    ensureEntries 9 [1, 2] (ensureEntries 5 [1, 2] c8states) =
      ensureEntries 5 [1, 2] c8states) :=
  ⟨by decide, ensure_entries_idempotent 5 9 [1, 2] c8states 1 (by decide)⟩

end Uptime
